import Mathlib

/-!
Verification of `fix_html_structure.py`: a script that repairs an HTML file in
which a complete inner document (`<!DOCTYPE html> ... <body ...> ... </body></html>`)
is erroneously nested inside a `<div class="display-inner">` wrapper.

The script is a single regex search-and-splice:

  pattern = (<div class="display-inner">.*?)(<!DOCTYPE html>.*?<body.*?>)(.*?)(</body>\s*</html>)(.*?</div>)
  compiled with re.DOTALL; on a match, groups 1, 3, 5 are concatenated and spliced
  back over the matched span, and the file is rewritten.

We embed the exact backtracking semantics of this pattern on `List Char`:
each lazy `.*?` tries the shortest extension first and extends one character at a
time when everything to its right fails; the greedy `\s*` consumes the longest
whitespace run first and backs off on failure; `re.search` tries start offsets
left to right.  The batch driver (`main`) is embedded over an explicit model of
the target directory.
-/

namespace HtmlFix

/-- The literal `<div class="display-inner">`: anchor of regex group 1. -/
def divOpen : List Char := "<div class=\"display-inner\">".data

/-- The literal `<!DOCTYPE html>`: start of regex group 2. -/
def doctype : List Char := "<!DOCTYPE html>".data

/-- The literal `<body`: the inner body open tag, inside regex group 2. -/
def bodyOpen : List Char := "<body".data

/-- The literal `>` closing the inner `<body ...>` tag. -/
def gtTok : List Char := ">".data

/-- The literal `</body>`: start of regex group 4. -/
def closeBody : List Char := "</body>".data

/-- The literal `</html>`: end of regex group 4. -/
def closeHtml : List Char := "</html>".data

/-- The literal `</div>`: end of regex group 5. -/
def closeDiv : List Char := "</div>".data

/-- Python's `\s` character class for `str` patterns (Unicode whitespace). -/
def isPySpace (c : Char) : Bool :=
  c == ' ' || c == '\t' || c == '\n' || c == '\r' || c == '\x0b' || c == '\x0c' ||
  c == '\x1c' || c == '\x1d' || c == '\x1e' || c == '\x1f' || c == '\x85' || c == '\xa0' ||
  c == ' ' || (decide (' ' ≤ c) && decide (c ≤ ' ')) ||
  c == ' ' || c == ' ' || c == ' ' || c == ' ' || c == '　'

/-- Backtracking engine for a lazy `.*?` (under `re.DOTALL`, so `.` matches every
character) followed by the literal `lit`, followed by the rest of the pattern `k`:
the shortest skip is tried first, extended one character at a time whenever the
literal or everything after it fails.  Returns the characters consumed by the
lazy star together with the continuation's result. -/
def lazyUpto (lit : List Char) (k : List Char → Option α) : List Char → Option (List Char × α)
  | [] =>
    match (if lit.isPrefixOf ([] : List Char) then k (([] : List Char).drop lit.length) else none) with
    | some a => some ([], a)
    | none => none
  | c :: rest =>
    match (if lit.isPrefixOf (c :: rest) then k ((c :: rest).drop lit.length) else none) with
    | some a => some ([], a)
    | none =>
      match lazyUpto lit k rest with
      | some (p, a) => some (c :: p, a)
      | none => none

/-- Backtracking engine for the greedy `\s*` followed by the rest of the pattern `k`:
the longest whitespace run is consumed first, backing off one character at a time
when everything after it fails.  Returns the consumed run and the continuation's
result. -/
def wsThen (k : List Char → Option α) : List Char → Option (List Char × α)
  | [] =>
    match k ([] : List Char) with
    | some a => some ([], a)
    | none => none
  | c :: rest =>
    if isPySpace c then
      match wsThen k rest with
      | some (w, a) => some (c :: w, a)
      | none =>
        match k (c :: rest) with
        | some a => some ([], a)
        | none => none
    else
      match k (c :: rest) with
      | some a => some ([], a)
      | none => none

/-- Pattern tail after `</html>`: the lazy `.*?` then the literal `</div>` (group 5);
the continuation is the end of the pattern, which always succeeds and reports the
text remaining after the match. -/
def stage6 (t : List Char) : Option (List Char × List Char) :=
  lazyUpto closeDiv some t

/-- Pattern tail after the `\s*` of group 4: the literal `</html>`, then `stage6`. -/
def stage5 (t : List Char) : Option (List Char × List Char) :=
  if closeHtml.isPrefixOf t then stage6 (t.drop closeHtml.length) else none

/-- Pattern tail after `</body>`: the greedy `\s*` of group 4, then `stage5`. -/
def stage4 (t : List Char) : Option (List Char × (List Char × List Char)) :=
  wsThen stage5 t

/-- Pattern tail after the inner `<body ...>` tag: group 3's lazy `.*?`, then the
literal `</body>`, then `stage4`. -/
def stage3 (t : List Char) : Option (List Char × (List Char × (List Char × List Char))) :=
  lazyUpto closeBody stage4 t

/-- Pattern tail after `<body`: the lazy `.*?` of the attribute span, then the
literal `>`, then `stage3`. -/
def stage2 (t : List Char) : Option (List Char × (List Char × (List Char × (List Char × List Char)))) :=
  lazyUpto gtTok stage3 t

/-- Pattern tail after `<!DOCTYPE html>`: the lazy `.*?`, then the literal `<body`,
then `stage2`. -/
def stage1 (t : List Char) : Option (List Char × (List Char × (List Char × (List Char × (List Char × List Char))))) :=
  lazyUpto bodyOpen stage2 t

/-- Pattern tail after `<div class="display-inner">`: group 1's lazy `.*?`, then the
literal `<!DOCTYPE html>`, then `stage1`. -/
def stage0 (t : List Char) : Option (List Char × (List Char × (List Char × (List Char × (List Char × (List Char × List Char)))))) :=
  lazyUpto doctype stage1 t

/-- The data of a successful match of the pattern: the spans consumed by each of
the five lazy stars, the whitespace run of group 4, and the text remaining after
the match end. -/
structure MData where
  lazy1 : List Char
  lazy2 : List Char
  lazy3 : List Char
  inner : List Char
  ws : List Char
  lazy5 : List Char
  rest : List Char
deriving DecidableEq

/-- Anchored match of the whole pattern at the start of `s` (what the regex engine
attempts at one search offset). -/
def matchAt (s : List Char) : Option MData :=
  if divOpen.isPrefixOf s then
    match stage0 (s.drop divOpen.length) with
    | some r => some ⟨r.1, r.2.1, r.2.2.1, r.2.2.2.1, r.2.2.2.2.1, r.2.2.2.2.2.1, r.2.2.2.2.2.2⟩
    | none => none
  else none

/-- `re.search` over the whole text: try each start offset from the left; at the
first offset where the anchored match succeeds, return the text before the match
and the match data. -/
def searchPat : List Char → Option (List Char × MData)
  | [] =>
    match matchAt [] with
    | some md => some ([], md)
    | none => none
  | c :: rest =>
    match matchAt (c :: rest) with
    | some md => some ([], md)
    | none =>
      match searchPat rest with
      | some (p, md) => some (c :: p, md)
      | none => none

/-- Regex group 1: `<div class="display-inner">.*?`. -/
def group1 (md : MData) : List Char := divOpen ++ md.lazy1

/-- Regex group 2: `<!DOCTYPE html>.*?<body.*?>`. -/
def group2 (md : MData) : List Char := doctype ++ md.lazy2 ++ bodyOpen ++ md.lazy3 ++ gtTok

/-- Regex group 3: the inner body content `.*?`. -/
def group3 (md : MData) : List Char := md.inner

/-- Regex group 4: `</body>\s*</html>`. -/
def group4 (md : MData) : List Char := closeBody ++ md.ws ++ closeHtml

/-- Regex group 5: `.*?</div>`. -/
def group5 (md : MData) : List Char := md.lazy5 ++ closeDiv

/-- The full matched span `match.group(0)`. -/
def matchedSpan (md : MData) : List Char :=
  group1 md ++ group2 md ++ group3 md ++ group4 md ++ group5 md

/-- The replacement `f"{pre_inner_div}{inner_body_content}{post_inner_div}"`
spliced over the matched span (source line 22). -/
def replacement (md : MData) : List Char := group1 md ++ group3 md ++ group5 md

/-- Pure core of `fix_nested_html` (source lines 6-27): search the text; if there
is no match return the text unchanged with `False`; otherwise splice groups
1, 3, 5 over the matched span and return the new text with `True`. -/
def fix_nested_html (content : List Char) : Bool × List Char :=
  match searchPat content with
  | none => (false, content)
  | some (pre, md) => (true, pre ++ replacement md ++ md.rest)

/-- The source performs `file_path.write_text` (line 25) exactly on the executions
that return `True`, i.e. exactly when the pattern matched. -/
def writeOccurs (content : List Char) : Bool := (fix_nested_html content).1

/-! ## Batch driver model

`main` (source lines 30-45) resolves a fixed directory; if it is missing it
reports and returns, otherwise it processes every `*.html` file in sorted order,
counting the fixed ones.  We model the directory as `Option` of a list of named
files; a file is `readable` with its text, or `unreadable`, in which case the
uncaught `OSError`/`UnicodeDecodeError` of `read_text` aborts the run.  The
aborted (`Except.error`) and normal outcomes both carry the final states of the
enumerated files, so that rollback behaviour is observable. -/

/-- State of one file in the target directory: readable with its content, or a
file whose `read_text` raises (missing, permission denied, invalid encoding). -/
inductive FileState
  | readable (content : List Char)
  | unreadable
deriving DecidableEq

/-- True when reading the file succeeds. -/
def isReadable : FileState → Bool
  | FileState.readable _ => true
  | FileState.unreadable => false

/-- Every file in the list can be read. -/
def allReadable (l : List (String × FileState)) : Bool :=
  l.all (fun f => isReadable f.2)

/-- One `fix_nested_html(file_path)` call on a file: reading an unreadable file
raises (modelled as `none`); otherwise the file ends up holding the transformed
text (rewritten exactly when the pattern matched) and the call reports whether
it changed the file. -/
def processFile : FileState → Option (Bool × FileState)
  | FileState.readable c => some ((fix_nested_html c).1, FileState.readable (fix_nested_html c).2)
  | FileState.unreadable => none

/-- The state a readable file is left in by a successful `fix_nested_html` call. -/
def procEntry (f : String × FileState) : String × FileState :=
  match f.2 with
  | FileState.readable c => (f.1, FileState.readable (fix_nested_html c).2)
  | FileState.unreadable => f

/-- Whether a successful `fix_nested_html` call on the file returns `True`. -/
def changedEntry (f : String × FileState) : Bool :=
  match f.2 with
  | FileState.readable c => (fix_nested_html c).1
  | FileState.unreadable => false

/-- Code-point lexicographic comparison of character lists: how Python compares
two strings (shorter prefixes first, then by the first differing code point). -/
def lexLe : List Char → List Char → Bool
  | [], _ => true
  | _ :: _, [] => false
  | a :: as, b :: bs =>
    if a.toNat < b.toNat then true
    else if b.toNat < a.toNat then false
    else lexLe as bs

/-- Name comparison of two paths in the same directory. -/
def nameLe (a b : String) : Bool := lexLe a.data b.data

/-- Comparison used by `sorted(html_dir.glob('*.html'))`: paths in one directory
compare by their name strings (code-point lexicographic). -/
def byName (a b : String × FileState) : Prop := nameLe a.1 b.1 = true

instance : DecidableRel byName := fun a b => inferInstanceAs (Decidable (nameLe a.1 b.1 = true))

/-- Whether `glob('*.html')` selects the file: its name ends with `.html`. -/
def isHtmlName (n : String) : Bool := ".html".data.isSuffixOf n.data

/-- `sorted(html_dir.glob('*.html'))`: the `.html`-named files of the directory in
lexicographically sorted name order (names in one directory are distinct, so any
stable sort gives this unique order). -/
def listHtml (fs : List (String × FileState)) : List (String × FileState) :=
  List.insertionSort byName (fs.filter (fun f => isHtmlName f.1))

/-- The `for` loop of `main` (source lines 41-43): process files left to right,
incrementing the fixed count on each `True`; an unreadable file aborts the whole
run immediately (`Except.error`), leaving the earlier files in their already
processed states and the failing and later files untouched. -/
def runBatch : List (String × FileState) →
    Except (List (String × FileState)) (Nat × List (String × FileState))
  | [] => Except.ok (0, [])
  | f :: rest =>
    match processFile f.2 with
    | none => Except.error (f :: rest)
    | some (changed, st) =>
      match runBatch rest with
      | Except.ok (cnt, out) => Except.ok ((if changed then 1 else 0) + cnt, (f.1, st) :: out)
      | Except.error out => Except.error ((f.1, st) :: out)

/-- Observable outcome of a normal `main` run: either the missing-directory report
(source lines 34-36) or the final summary line `Processed {n} files, fixed {m}`
together with the final file states. -/
inductive MainResult
  | missingDir
  | summary (processed fixedCount : Nat) (files : List (String × FileState))
deriving DecidableEq

/-- `main` (source lines 30-45) over an explicit directory model: `none` means the
target directory does not exist. -/
def mainRun (dir : Option (List (String × FileState))) :
    Except (List (String × FileState)) MainResult :=
  match dir with
  | none => Except.ok MainResult.missingDir
  | some fs =>
    match runBatch (listHtml fs) with
    | Except.ok (cnt, out) => Except.ok (MainResult.summary (listHtml fs).length cnt out)
    | Except.error out => Except.error out

/-! ## Predicates used to state the claims

These formalise phrases of the specification about the *input text* (substring
occurrence, occurrence counts, single-occurrence inputs); they are statement-side
vocabulary, not part of the embedded program. -/

/-- `lit` occurs as a contiguous substring of the text. -/
def containsLit (lit : List Char) : List Char → Bool
  | [] => lit.isEmpty
  | c :: rest => lit.isPrefixOf (c :: rest) || containsLit lit rest

/-- Some occurrence of `l1` is eventually followed by an occurrence of `l2`. -/
def seqOccurs (l1 l2 : List Char) : List Char → Bool
  | [] => false
  | c :: rest =>
    (l1.isPrefixOf (c :: rest) && containsLit l2 ((c :: rest).drop l1.length))
      || seqOccurs l1 l2 rest

/-- The text contains `<div class="display-inner">` eventually followed by
`<!DOCTYPE html>`. -/
def hasDivThenDoctype (s : List Char) : Bool := seqOccurs divOpen doctype s

/-- Number of occurrences of `lit` (start positions where it is a prefix of the
remaining text; for nonempty `lit` this is the usual substring-occurrence count). -/
def countLit (lit : List Char) : List Char → Nat
  | [] => 0
  | c :: rest => (if lit.isPrefixOf (c :: rest) then 1 else 0) + countLit lit rest

/-- The text contains exactly one (non-overlapping) occurrence of the pattern:
the search succeeds and, as `re.finditer` would continue, the text after the
match end contains no further match. -/
def isSingleMatch (content : List Char) : Bool :=
  match searchPat content with
  | none => false
  | some (_, md) => (searchPat md.rest).isNone

/-! ## Concrete inputs used by the witnesses and counterexamples -/

/-- The end-to-end example file content from the specification. -/
def ex1 : List Char :=
  "<div class=\"display-inner\">X<!DOCTYPE html><html><body class=\"x\">INNER</body></html>Y</div>".data

/-- The expected fixed text of `ex1`. -/
def out1 : List Char := "<div class=\"display-inner\">XINNERY</div>".data

/-- The match data of the pattern on `ex1`. -/
def md1 : MData :=
  ⟨"X".data, "<html>".data, " class=\"x\"".data, "INNER".data, [], "Y".data, []⟩

/-- A single-occurrence input on which the splice re-creates `<!DOCTYPE html>`:
group 1 ends with `A<!DOCT` and the inner body content starts with `YPE html>`,
so deleting the inner boilerplate glues them into a fresh `<!DOCTYPE html>`. -/
def exC3 : List Char :=
  "<div class=\"display-inner\">A<!DOCT<!DOCTYPE html><body>YPE html>B</body></html>C</div>".data

/-- A single-occurrence input on which the splice re-creates an entire nested
document, so that a second application of the fix matches again. -/
def exC4 : List Char :=
  "<div class=\"display-inner\">A<!DOCT<!DOCTYPE html><body>YPE html><body>Z</body></html>W</body></html>U</div>".data

/-- Two independent nested-document occurrences, back to back. -/
def ex6 : List Char := ex1 ++ ex1

/-- The match data of the pattern on `ex6`: the first copy matches and the second
copy is the text after the match end. -/
def md6 : MData :=
  ⟨"X".data, "<html>".data, " class=\"x\"".data, "INNER".data, [], "Y".data, ex1⟩

/-- A text without the wrapper pattern at all. -/
def plainText : List Char := "<p>hello</p>".data

/-- An ordinary page with no nested document inside a wrapper. -/
def noMatchPage : List Char := "<html><body>plain page</body></html>".data

/-- A directory with three `.html` files (exactly one of them matching) and one
non-`.html` file that must be ignored even though its content matches. -/
def dir3 : List (String × FileState) :=
  [("b.html", FileState.readable noMatchPage), ("c.txt", FileState.readable ex1),
   ("a.html", FileState.readable ex1), ("c.html", FileState.readable noMatchPage)]

/-- A directory in which the middle file (in sorted order) cannot be read. -/
def dirBad : List (String × FileState) :=
  [("b.html", FileState.unreadable), ("a.html", FileState.readable ex1),
   ("c.html", FileState.readable noMatchPage)]

/-! ## Decomposition of a successful match

A successful anchored match cuts the text into the literal anchors and the spans
consumed by the lazy stars; a successful search additionally yields the text in
front of the match.  These lemmas recover those concatenation equations. -/

/-- A `List.isPrefixOf` success splits the list. -/
theorem prefixOf_append_drop :
    ∀ (l s : List Char), l.isPrefixOf s = true → s = l ++ s.drop l.length
  | [], s, _ => by simp
  | a :: as, [], h => by simp [List.isPrefixOf] at h
  | a :: as, b :: bs, h => by
    simp only [List.isPrefixOf, Bool.and_eq_true, beq_iff_eq] at h
    obtain ⟨rfl, h2⟩ := h
    have ih := prefixOf_append_drop as bs h2
    simp only [List.cons_append, List.length_cons, List.drop_succ_cons]
    rw [← ih]

/-- `l` is a prefix of `l ++ t`. -/
theorem prefixOf_append_self (l t : List Char) : l.isPrefixOf (l ++ t) = true := by
  induction l with
  | nil => simp [List.isPrefixOf]
  | cons a as ih => simp [List.isPrefixOf, ih]

/-- A successful `lazyUpto` run splits its input into the skipped span, the
literal, and a remainder accepted by the continuation. -/
theorem lazyUpto_some (lit : List Char) (k : List Char → Option α) :
    ∀ (s p : List Char) (a : α), lazyUpto lit k s = some (p, a) →
      ∃ t, s = p ++ lit ++ t ∧ k t = some a := by
  intro s
  induction s with
  | nil =>
    intro p a h
    simp only [lazyUpto] at h
    split at h
    · next a' heq =>
      obtain ⟨rfl, rfl⟩ : p = [] ∧ a' = a := by
        constructor <;> cases h <;> rfl
      split at heq
      · next hpre =>
        obtain ⟨rfl, -⟩ := List.append_eq_nil.mp (prefixOf_append_drop lit [] hpre).symm
        exact ⟨[], by simp, heq⟩
      · exact absurd heq (by simp)
    · exact absurd h (by simp)
  | cons c rest ih =>
    intro p a h
    simp only [lazyUpto] at h
    split at h
    · next a' heq =>
      obtain ⟨rfl, rfl⟩ : p = [] ∧ a' = a := by
        constructor <;> cases h <;> rfl
      split at heq
      · next hpre =>
        exact ⟨(c :: rest).drop lit.length, by
          simpa using prefixOf_append_drop lit (c :: rest) hpre, heq⟩
      · exact absurd heq (by simp)
    · next heq' =>
      split at h
      · next p' a' heq =>
        obtain ⟨rfl, rfl⟩ : p = c :: p' ∧ a' = a := by
          constructor <;> cases h <;> rfl
        obtain ⟨t, ht, hk⟩ := ih _ _ heq
        exact ⟨t, by simp [ht], hk⟩
      · exact absurd h (by simp)

/-- A successful `wsThen` run splits its input into the consumed whitespace run
and a remainder accepted by the continuation. -/
theorem wsThen_some (k : List Char → Option α) :
    ∀ (s w : List Char) (a : α), wsThen k s = some (w, a) →
      ∃ t, s = w ++ t ∧ k t = some a := by
  intro s
  induction s with
  | nil =>
    intro w a h
    simp only [wsThen] at h
    split at h
    · next a' heq =>
      obtain ⟨rfl, rfl⟩ : w = [] ∧ a' = a := by
        constructor <;> cases h <;> rfl
      exact ⟨[], rfl, heq⟩
    · exact absurd h (by simp)
  | cons c rest ih =>
    intro w a h
    simp only [wsThen] at h
    split at h
    · next hsp =>
      split at h
      · next w' a' heq =>
        obtain ⟨rfl, rfl⟩ : w = c :: w' ∧ a' = a := by
          constructor <;> cases h <;> rfl
        obtain ⟨t, ht, hk⟩ := ih _ _ heq
        exact ⟨t, by simp [ht], hk⟩
      · next heq' =>
        split at h
        · next a' heq =>
          obtain ⟨rfl, rfl⟩ : w = [] ∧ a' = a := by
            constructor <;> cases h <;> rfl
          exact ⟨c :: rest, rfl, heq⟩
        · exact absurd h (by simp)
    · split at h
      · next a' heq =>
        obtain ⟨rfl, rfl⟩ : w = [] ∧ a' = a := by
          constructor <;> cases h <;> rfl
        exact ⟨c :: rest, rfl, heq⟩
      · exact absurd h (by simp)

/-- Decomposition of `stage6`: lazy span, `</div>`, text after the match. -/
theorem stage6_split (t p r : List Char) (h : stage6 t = some (p, r)) :
    t = p ++ closeDiv ++ r := by
  obtain ⟨u, hu, hk⟩ := lazyUpto_some closeDiv some t p r h
  cases hk
  exact hu

/-- Decomposition of `stage5`: `</html>`, then the group-5 spans. -/
theorem stage5_split (t p r : List Char) (h : stage5 t = some (p, r)) :
    t = closeHtml ++ p ++ closeDiv ++ r := by
  unfold stage5 at h
  split at h
  · next hpre =>
    have := prefixOf_append_drop closeHtml t hpre
    rw [stage6_split _ _ _ h] at this
    simpa [List.append_assoc] using this
  · exact absurd h (by simp)

/-- Decomposition of `stage4`: whitespace run, then `</html>` and group 5. -/
theorem stage4_split (t w p r : List Char) (h : stage4 t = some (w, (p, r))) :
    t = w ++ closeHtml ++ p ++ closeDiv ++ r := by
  obtain ⟨u, hu, hk⟩ := wsThen_some stage5 t w (p, r) h
  rw [stage5_split _ _ _ hk] at hu
  simpa [List.append_assoc] using hu

/-- Decomposition of `stage3`: group 3, `</body>`, whitespace, `</html>`, group 5. -/
theorem stage3_split (t g w p r : List Char) (h : stage3 t = some (g, (w, (p, r)))) :
    t = g ++ closeBody ++ w ++ closeHtml ++ p ++ closeDiv ++ r := by
  obtain ⟨u, hu, hk⟩ := lazyUpto_some closeBody stage4 t g (w, (p, r)) h
  rw [stage4_split _ _ _ _ hk] at hu
  simpa [List.append_assoc] using hu

/-- Decomposition of `stage2`: attribute span, `>`, then the rest. -/
theorem stage2_split (t l3 g w p r : List Char)
    (h : stage2 t = some (l3, (g, (w, (p, r))))) :
    t = l3 ++ gtTok ++ g ++ closeBody ++ w ++ closeHtml ++ p ++ closeDiv ++ r := by
  obtain ⟨u, hu, hk⟩ := lazyUpto_some gtTok stage3 t l3 (g, (w, (p, r))) h
  rw [stage3_split _ _ _ _ _ hk] at hu
  simpa [List.append_assoc] using hu

/-- Decomposition of `stage1`: lazy span, `<body`, then the rest. -/
theorem stage1_split (t l2 l3 g w p r : List Char)
    (h : stage1 t = some (l2, (l3, (g, (w, (p, r)))))) :
    t = l2 ++ bodyOpen ++ l3 ++ gtTok ++ g ++ closeBody ++ w ++ closeHtml ++ p ++ closeDiv ++ r := by
  obtain ⟨u, hu, hk⟩ := lazyUpto_some bodyOpen stage2 t l2 (l3, (g, (w, (p, r)))) h
  rw [stage2_split _ _ _ _ _ _ hk] at hu
  simpa [List.append_assoc] using hu

/-- Decomposition of `stage0`: group-1 lazy span, `<!DOCTYPE html>`, then the rest. -/
theorem stage0_split (t l1 l2 l3 g w p r : List Char)
    (h : stage0 t = some (l1, (l2, (l3, (g, (w, (p, r))))))) :
    t = l1 ++ doctype ++ l2 ++ bodyOpen ++ l3 ++ gtTok ++ g ++ closeBody ++ w ++
        closeHtml ++ p ++ closeDiv ++ r := by
  obtain ⟨u, hu, hk⟩ := lazyUpto_some doctype stage1 t l1 (l2, (l3, (g, (w, (p, r))))) h
  rw [stage1_split _ _ _ _ _ _ _ hk] at hu
  simpa [List.append_assoc] using hu

/-- A successful anchored match decomposes the text as the full matched span
(group 0) followed by the text after the match end. -/
theorem matchAt_split (s : List Char) (md : MData) (h : matchAt s = some md) :
    s = matchedSpan md ++ md.rest := by
  unfold matchAt at h
  split at h
  · next hpre =>
    split at h
    · next r heq =>
      cases h
      have hs := prefixOf_append_drop divOpen s hpre
      rw [stage0_split _ _ _ _ _ _ _ _ heq] at hs
      simp only [matchedSpan, group1, group2, group3, group4, group5, List.append_assoc] at hs ⊢
      exact hs
    · exact absurd h (by simp)
  · exact absurd h (by simp)

/-- A successful search decomposes the text as the part before the match, the
matched span, and the part after the match. -/
theorem searchPat_split :
    ∀ (content pre : List Char) (md : MData), searchPat content = some (pre, md) →
      content = pre ++ matchedSpan md ++ md.rest
  | [], pre, md, h => by
    simp only [searchPat] at h
    split at h
    · next md' heq =>
      obtain ⟨rfl, rfl⟩ : pre = [] ∧ md' = md := by
        constructor <;> cases h <;> rfl
      simpa using matchAt_split [] _ heq
    · exact absurd h (by simp)
  | c :: rest, pre, md, h => by
    simp only [searchPat] at h
    split at h
    · next md' heq =>
      obtain ⟨rfl, rfl⟩ : pre = [] ∧ md' = md := by
        constructor <;> cases h <;> rfl
      simpa using matchAt_split (c :: rest) _ heq
    · split at h
      · next p' md' heq =>
        obtain ⟨rfl, rfl⟩ : pre = c :: p' ∧ md' = md := by
          constructor <;> cases h <;> rfl
        have ih := searchPat_split rest _ _ heq
        simp [ih]
      · exact absurd h (by simp)

/-- The search returns the leftmost match: at every strictly earlier start offset
the anchored match fails. -/
theorem searchPat_leftmost :
    ∀ (content pre : List Char) (md : MData), searchPat content = some (pre, md) →
      ∀ a b : List Char, content = a ++ b → a.length < pre.length → matchAt b = none
  | [], pre, md, h => by
    simp only [searchPat] at h
    split at h
    · next md' heq =>
      obtain ⟨rfl, rfl⟩ : pre = [] ∧ md' = md := by
        constructor <;> cases h <;> rfl
      intro a b _ hlen
      exact absurd hlen (by simp)
    · exact absurd h (by simp)
  | c :: rest, pre, md, h => by
    simp only [searchPat] at h
    split at h
    · next md' heq =>
      obtain ⟨rfl, rfl⟩ : pre = [] ∧ md' = md := by
        constructor <;> cases h <;> rfl
      intro a b _ hlen
      exact absurd hlen (by simp)
    · next hnone =>
      split at h
      · next p' md' heq =>
        obtain ⟨rfl, rfl⟩ : pre = c :: p' ∧ md' = md := by
          constructor <;> cases h <;> rfl
        intro a b hab hlen
        cases a with
        | nil =>
          have hb : b = c :: rest := by simpa using hab.symm
          rw [hb]; exact hnone
        | cons a0 a' =>
          have htl : rest = a' ++ b := by
            simpa using congrArg List.tail hab
          exact searchPat_leftmost rest _ _ heq a' b htl (by
            simpa [Nat.succ_lt_succ_iff] using hlen)
      · exact absurd h (by simp)

/-! ## The no-match case -/

/-- A text of the form `a ++ lit ++ b` contains `lit`. -/
theorem containsLit_of_split (lit : List Char) (hne : lit ≠ []) :
    ∀ a b : List Char, containsLit lit (a ++ lit ++ b) = true := by
  intro a
  induction a with
  | nil =>
    intro b
    obtain ⟨x, xs, rfl⟩ := List.exists_cons_of_ne_nil hne
    have h1 : (x :: xs).isPrefixOf ((x :: xs) ++ b) = true := prefixOf_append_self _ _
    simp only [List.nil_append, List.cons_append, containsLit] at *
    simp [h1]
  | cons c a' ih =>
    intro b
    have hih := ih b
    simp only [containsLit, List.cons_append]
    simp only [List.append_eq] at *
    rw [hih]
    simp

/-- A text of the form `a ++ l1 ++ b ++ l2 ++ c` has an occurrence of `l1`
eventually followed by one of `l2`. -/
theorem seqOccurs_of_split (l1 l2 : List Char) (h1 : l1 ≠ []) (h2 : l2 ≠ []) :
    ∀ a b c : List Char, seqOccurs l1 l2 (a ++ l1 ++ b ++ l2 ++ c) = true := by
  intro a
  induction a with
  | nil =>
    intro b c
    obtain ⟨x, xs, rfl⟩ := List.exists_cons_of_ne_nil h1
    have hpre : (x :: xs).isPrefixOf ((x :: xs) ++ (b ++ l2 ++ c)) = true :=
      prefixOf_append_self _ _
    have hdrop : ((x :: xs) ++ (b ++ l2 ++ c)).drop (x :: xs).length = b ++ l2 ++ c :=
      List.drop_left _ _
    have hcl := containsLit_of_split l2 h2 b c
    simp only [List.nil_append, List.cons_append, List.append_assoc, seqOccurs] at *
    simp [hpre, hdrop, hcl]
  | cons d a' ih =>
    intro b c
    have hih := ih b c
    simp only [seqOccurs, List.cons_append]
    simp only [List.append_eq] at *
    rw [hih]
    simp

/-- If the text has no `<div class="display-inner">` eventually followed by
`<!DOCTYPE html>`, the pattern search fails. -/
theorem searchPat_none_of_no_seq (content : List Char)
    (h : hasDivThenDoctype content = false) : searchPat content = none := by
  cases hs : searchPat content with
  | none => rfl
  | some r =>
    obtain ⟨pre, md⟩ := r
    have hd := searchPat_split content pre md hs
    have hshape : content = pre ++ divOpen ++ md.lazy1 ++ doctype ++
        (md.lazy2 ++ bodyOpen ++ md.lazy3 ++ gtTok ++ md.inner ++ closeBody ++ md.ws ++
         closeHtml ++ md.lazy5 ++ closeDiv ++ md.rest) := by
      rw [hd]
      simp [matchedSpan, group1, group2, group3, group4, group5, List.append_assoc]
    have hkey := seqOccurs_of_split divOpen doctype (by decide) (by decide)
      pre md.lazy1 (md.lazy2 ++ bodyOpen ++ md.lazy3 ++ gtTok ++ md.inner ++ closeBody ++
        md.ws ++ closeHtml ++ md.lazy5 ++ closeDiv ++ md.rest)
    rw [hasDivThenDoctype, hshape, hkey] at h
    exact absurd h (by simp)

/-- If the text has no `<div class="display-inner">` eventually followed by
`<!DOCTYPE html>`, `fix_nested_html` is the identity and reports no change. -/
theorem fix_of_no_pattern (content : List Char) (h : hasDivThenDoctype content = false) :
    fix_nested_html content = (false, content) := by
  unfold fix_nested_html
  rw [searchPat_none_of_no_seq content h]

/-! ## Batch driver lemmas -/

/-- On a list of readable files the loop succeeds, counting the changed files and
leaving every file in its processed state. -/
theorem runBatch_allReadable :
    ∀ l : List (String × FileState), allReadable l = true →
      runBatch l = Except.ok (List.countP changedEntry l, l.map procEntry) := by
  intro l
  induction l with
  | nil => intro _; simp [runBatch]
  | cons f rest ih =>
    intro h
    obtain ⟨name, st⟩ := f
    simp only [allReadable, List.all_cons, Bool.and_eq_true] at h
    obtain ⟨h1, h2⟩ := h
    cases st with
    | unreadable => simp [isReadable] at h1
    | readable c =>
      have ih' := ih (by simpa [allReadable] using h2)
      simp only [runBatch, processFile, ih', List.countP_cons, List.map_cons]
      simp [changedEntry, procEntry, Nat.add_comm]

/-- The loop aborts at the first unreadable file: the earlier files keep their
processed states, the failing file and everything after it are untouched. -/
theorem runBatch_abort :
    ∀ (pre : List (String × FileState)) (n : String) (post : List (String × FileState)),
      allReadable pre = true →
      runBatch (pre ++ (n, FileState.unreadable) :: post)
        = Except.error (pre.map procEntry ++ (n, FileState.unreadable) :: post) := by
  intro pre
  induction pre with
  | nil => intro n post _; simp [runBatch, processFile]
  | cons f pre' ih =>
    intro n post h
    obtain ⟨name, st⟩ := f
    simp only [allReadable, List.all_cons, Bool.and_eq_true] at h
    obtain ⟨h1, h2⟩ := h
    cases st with
    | unreadable => simp [isReadable] at h1
    | readable c =>
      have ih' := ih n post (by simpa [allReadable] using h2)
      simp only [List.cons_append, runBatch, processFile, List.append_eq]
      rw [ih']
      simp [procEntry]

/-- `lexLe` is total. -/
theorem lexLe_total : ∀ x y : List Char, lexLe x y = true ∨ lexLe y x = true
  | [], _ => Or.inl rfl
  | _ :: _, [] => Or.inr rfl
  | a :: as, b :: bs => by
    simp only [lexLe]
    rcases Nat.lt_trichotomy a.toNat b.toNat with h | h | h
    · left
      simp [h]
    · have hnab : ¬ a.toNat < b.toNat := by omega
      have hnba : ¬ b.toNat < a.toNat := by omega
      rcases lexLe_total as bs with ih | ih
      · left
        simp [hnab, hnba, ih]
      · right
        simp [hnab, hnba, ih]
    · right
      simp [h]

/-- `lexLe` is transitive. -/
theorem lexLe_trans : ∀ x y z : List Char,
    lexLe x y = true → lexLe y z = true → lexLe x z = true
  | [], _, _, _, _ => rfl
  | _ :: _, [], _, h, _ => by simp [lexLe] at h
  | _ :: _, _ :: _, [], _, h2 => by simp [lexLe] at h2
  | a :: as, b :: bs, c :: cs, h1, h2 => by
    simp only [lexLe] at h1 h2 ⊢
    split at h1
    · next hab =>
      split at h2
      · next hbc =>
        simp [show a.toNat < c.toNat from Nat.lt_trans hab hbc]
      · next hbc =>
        split at h2
        · exact absurd h2 (by simp)
        · next hcb =>
          simp [show a.toNat < c.toNat by omega]
    · next hab =>
      split at h1
      · exact absurd h1 (by simp)
      · next hba =>
        split at h2
        · next hbc =>
          simp [show a.toNat < c.toNat by omega]
        · next hbc =>
          split at h2
          · exact absurd h2 (by simp)
          · next hcb =>
            have hnac : ¬ a.toNat < c.toNat := by omega
            have hnca : ¬ c.toNat < a.toNat := by omega
            simp only [hnac, hnca, if_false]
            exact lexLe_trans as bs cs h1 h2

/-! ## The claims -/

/-- Claim C1: on a file whose text is exactly
`<div class="display-inner">X<!DOCTYPE html><html><body class="x">INNER</body></html>Y</div>`,
the fix produces exactly `<div class="display-inner">XINNERY</div>`, reports the
file as changed, and the batch driver's fixed-count for that single file is 1
(summary: 1 processed, 1 fixed, the file rewritten). -/
theorem claim1 :
    fix_nested_html ex1 = (true, out1)
    ∧ mainRun (some [("page.html", FileState.readable ex1)])
        = Except.ok (MainResult.summary 1 1 [("page.html", FileState.readable out1)]) :=
  ⟨rfl, rfl⟩

/-- Claim C2: on any text with no occurrence of `<div class="display-inner">`
eventually followed by `<!DOCTYPE html>`, the fix reports `changed = false`,
returns the text unchanged, and performs no write. -/
theorem claim2 (content : List Char) (h : hasDivThenDoctype content = false) :
    fix_nested_html content = (false, content) ∧ writeOccurs content = false := by
  have hfix := fix_of_no_pattern content h
  exact ⟨hfix, by simp [writeOccurs, hfix]⟩

/-- Witness for C2 at a concrete pattern-free text. -/
theorem claim2_witness :
    hasDivThenDoctype plainText = false
    ∧ (fix_nested_html plainText = (false, plainText) ∧ writeOccurs plainText = false) :=
  ⟨rfl, claim2 plainText rfl⟩

/-- Counterexample for C3: `exC3` contains exactly one well-formed nested
occurrence (a single pattern match, and a single occurrence of each boilerplate
literal), the fix reports a change, yet the output still contains the literal
`<!DOCTYPE html>`: the splice glues `A<!DOCT` (end of group 1) to `YPE html>`
(start of the inner body content), re-creating the substring the claim says is
gone. -/
theorem claim3_counterexample :
    isSingleMatch exC3 = true
    ∧ countLit doctype exC3 = 1 ∧ countLit bodyOpen exC3 = 1
    ∧ countLit closeBody exC3 = 1 ∧ countLit closeHtml exC3 = 1
    ∧ (fix_nested_html exC3).1 = true
    ∧ containsLit doctype (fix_nested_html exC3).2 = true :=
  ⟨rfl, rfl, rfl, rfl, rfl, rfl, rfl⟩

/-- Amended C3: whenever the pattern matches, the fix reports `changed = true`,
removes exactly the group-2 and group-4 spans — which contain `<!DOCTYPE html>`,
the inner `<body` open tag, `</body>` and `</html>` — and preserves the inner
body content (group 3) and all text outside the match verbatim.  (The literal
substrings themselves may reappear in the output when the splice re-creates them
across the junctions, as `claim3_counterexample` shows, so the original
"result no longer contains them" does not hold in general.) -/
theorem claim3_amended (content pre : List Char) (md : MData)
    (h : searchPat content = some (pre, md)) :
    (fix_nested_html content).1 = true
    ∧ (fix_nested_html content).2 = pre ++ group1 md ++ group3 md ++ group5 md ++ md.rest
    ∧ content = pre ++ group1 md ++ group2 md ++ group3 md ++ group4 md ++ group5 md ++ md.rest
    ∧ doctype.isPrefixOf (group2 md) = true
    ∧ containsLit bodyOpen (group2 md) = true
    ∧ closeBody.isPrefixOf (group4 md) = true
    ∧ containsLit closeHtml (group4 md) = true := by
  have hsplit := searchPat_split content pre md h
  refine ⟨by simp [fix_nested_html, h], ?_, ?_, ?_, ?_, ?_, ?_⟩
  · simp [fix_nested_html, h, replacement, List.append_assoc]
  · rw [hsplit]
    simp [matchedSpan, List.append_assoc]
  · have hp := prefixOf_append_self doctype (md.lazy2 ++ bodyOpen ++ md.lazy3 ++ gtTok)
    simpa [group2, List.append_assoc] using hp
  · have hc := containsLit_of_split bodyOpen (by decide) (doctype ++ md.lazy2) (md.lazy3 ++ gtTok)
    simpa [group2, List.append_assoc] using hc
  · have hp := prefixOf_append_self closeBody (md.ws ++ closeHtml)
    simpa [group4, List.append_assoc] using hp
  · have hc := containsLit_of_split closeHtml (by decide) (closeBody ++ md.ws) []
    simpa [group4, List.append_assoc] using hc

/-- Witness for the amended C3 at the specification's example input. -/
theorem claim3_witness :
    searchPat ex1 = some ([], md1)
    ∧ (fix_nested_html ex1).2 = [] ++ group1 md1 ++ group3 md1 ++ group5 md1 ++ md1.rest :=
  ⟨rfl, (claim3_amended ex1 [] md1 rfl).2.1⟩

/-- Counterexample for C4: `exC4` is a single-occurrence input (one pattern
match, consuming the whole wrapper), yet applying the fix to its own output
matches again and reports `changed = true`: the splice re-creates an entire
nested document across the junctions. -/
theorem claim4_counterexample :
    isSingleMatch exC4 = true
    ∧ (fix_nested_html ((fix_nested_html exC4).2)).1 = true :=
  ⟨rfl, rfl⟩

/-- Amended C4: a second application of the fix returns `changed = false` for a
single-occurrence input provided its output no longer contains
`<div class="display-inner">` eventually followed by `<!DOCTYPE html>`
(i.e. provided the splice did not re-create the pattern, which
`claim4_counterexample` shows it can). -/
theorem claim4_amended (content : List Char)
    (hsingle : isSingleMatch content = true)
    (hclean : hasDivThenDoctype (fix_nested_html content).2 = false) :
    fix_nested_html ((fix_nested_html content).2) = (false, (fix_nested_html content).2) :=
  fix_of_no_pattern _ hclean

/-- Witness for the amended C4 at the specification's example input. -/
theorem claim4_witness :
    isSingleMatch ex1 = true
    ∧ hasDivThenDoctype (fix_nested_html ex1).2 = false
    ∧ fix_nested_html ((fix_nested_html ex1).2) = (false, (fix_nested_html ex1).2) :=
  ⟨rfl, rfl, claim4_amended ex1 rfl rfl⟩

/-- Claim C5: whenever the pattern matches, the input decomposes as
(text before the match) ++ (matched span) ++ (text after the match), and the
output is exactly (text before the match) ++ (group 1 ++ group 3 ++ group 5) ++
(text after the match): everything outside the match is preserved byte for byte
and within the match only the group-2 and group-4 spans are removed. -/
theorem claim5 (content pre : List Char) (md : MData)
    (h : searchPat content = some (pre, md)) :
    content = pre ++ matchedSpan md ++ md.rest
    ∧ (fix_nested_html content).2 = pre ++ (group1 md ++ group3 md ++ group5 md) ++ md.rest := by
  refine ⟨searchPat_split content pre md h, ?_⟩
  simp [fix_nested_html, h, replacement, List.append_assoc]

/-- Witness for C5 at the specification's example input. -/
theorem claim5_witness :
    searchPat ex1 = some ([], md1)
    ∧ (fix_nested_html ex1).2 = [] ++ (group1 md1 ++ group3 md1 ++ group5 md1) ++ md1.rest :=
  ⟨rfl, (claim5 ex1 [] md1 rfl).2⟩

/-- Claim C6: on a text with two or more independent occurrences, one invocation
rewrites only the first (leftmost) match — the anchored match fails at every
earlier offset, and all text after the first match's end (which contains every
subsequent occurrence) is appended to the output verbatim. -/
theorem claim6 (content pre : List Char) (md : MData)
    (h : searchPat content = some (pre, md))
    (hmore : (searchPat md.rest).isSome = true) :
    (fix_nested_html content).1 = true
    ∧ (fix_nested_html content).2 = pre ++ replacement md ++ md.rest
    ∧ content = pre ++ matchedSpan md ++ md.rest
    ∧ (∀ a b : List Char, content = a ++ b → a.length < pre.length → matchAt b = none) :=
  ⟨by simp [fix_nested_html, h], by simp [fix_nested_html, h],
    searchPat_split content pre md h, searchPat_leftmost content pre md h⟩

/-- Witness for C6 on two back-to-back occurrences: the text after the first
match is the whole second copy, and it reappears verbatim in the output. -/
theorem claim6_witness :
    searchPat ex6 = some ([], md6)
    ∧ (searchPat md6.rest).isSome = true
    ∧ (fix_nested_html ex6).2 = [] ++ replacement md6 ++ md6.rest :=
  ⟨rfl, rfl, (claim6 ex6 [] md6 rfl rfl).2.1⟩

/-- Claim C7: when the target directory does not exist, the driver reports its
absence (the `missingDir` outcome models the console report of source lines
34-36), processes no files, and exits normally (`Except.ok`, not an error). -/
theorem claim7 : mainRun none = Except.ok MainResult.missingDir := rfl

/-- Claim C8: when the directory exists and its `.html` files are readable, the
driver processes exactly the files whose names end in `.html`, in
lexicographically sorted name order, and the final summary reports the number of
files examined and the number actually changed. -/
theorem claim8 (fs : List (String × FileState))
    (h : allReadable (listHtml fs) = true) :
    mainRun (some fs)
      = Except.ok (MainResult.summary (listHtml fs).length
          (List.countP changedEntry (listHtml fs)) ((listHtml fs).map procEntry))
    ∧ (listHtml fs).length = List.countP (fun f => isHtmlName f.1) fs
    ∧ List.Sorted byName (listHtml fs) := by
  refine ⟨?_, ?_, ?_⟩
  · simp only [mainRun]
    rw [runBatch_allReadable (listHtml fs) h]
  · rw [listHtml, List.length_insertionSort]
    exact (List.countP_eq_length_filter _ _).symm
  · haveI : IsTotal (String × FileState) byName := ⟨fun a b => lexLe_total a.1.data b.1.data⟩
    haveI : IsTrans (String × FileState) byName :=
      ⟨fun a b c hab hbc => lexLe_trans a.1.data b.1.data c.1.data hab hbc⟩
    exact List.sorted_insertionSort byName _

/-- Witness for C8: a directory with three `.html` files (one matching) and one
ignored `.txt` file reports 3 processed, 1 fixed, in sorted name order. -/
theorem claim8_witness :
    allReadable (listHtml dir3) = true
    ∧ mainRun (some dir3) = Except.ok (MainResult.summary 3 1
        [("a.html", FileState.readable out1), ("b.html", FileState.readable noMatchPage),
         ("c.html", FileState.readable noMatchPage)]) :=
  ⟨rfl, ((claim8 dir3 rfl).1).trans (by rfl)⟩

/-- Claim C9: if some file of the sorted enumeration is unreadable and every file
before it is readable, the run aborts there: the result is an error whose file
states show the earlier files already fixed (not rolled back) and the failing
and later files untouched. -/
theorem claim9 (fs pre post : List (String × FileState)) (n : String)
    (h : listHtml fs = pre ++ (n, FileState.unreadable) :: post)
    (hpre : allReadable pre = true) :
    mainRun (some fs) = Except.error (pre.map procEntry ++ (n, FileState.unreadable) :: post) := by
  simp only [mainRun]
  rw [h, runBatch_abort pre n post hpre]

/-- Witness for C9: in a directory whose middle file (sorted order) is
unreadable, the run aborts with the first file already rewritten and the third
untouched. -/
theorem claim9_witness :
    listHtml dirBad
      = [("a.html", FileState.readable ex1)] ++ ("b.html", FileState.unreadable)
          :: [("c.html", FileState.readable noMatchPage)]
    ∧ allReadable [("a.html", FileState.readable ex1)] = true
    ∧ mainRun (some dirBad) = Except.error
        ([("a.html", FileState.readable out1)] ++ ("b.html", FileState.unreadable)
          :: [("c.html", FileState.readable noMatchPage)]) := by
  refine ⟨rfl, rfl, ?_⟩
  have h := claim9 dirBad [("a.html", FileState.readable ex1)]
    [("c.html", FileState.readable noMatchPage)] "b.html" rfl rfl
  exact h.trans (by rfl)

/-- Claim C10: the fix only deletes characters: the output is always a sublist
(subsequence) of the input, never longer, and when the pattern matches the
output length is exactly the input length minus the lengths of the removed
group-2 and group-4 spans. -/
theorem claim10 (content : List Char) :
    List.Sublist (fix_nested_html content).2 content
    ∧ (fix_nested_html content).2.length ≤ content.length
    ∧ ∀ (pre : List Char) (md : MData), searchPat content = some (pre, md) →
        (fix_nested_html content).2.length + ((group2 md).length + (group4 md).length)
          = content.length := by
  cases hs : searchPat content with
  | none =>
    refine ⟨by simp [fix_nested_html, hs], by simp [fix_nested_html, hs], ?_⟩
    intro pre md h
    cases h
  | some r =>
    obtain ⟨pre, md⟩ := r
    have hsplit := searchPat_split content pre md hs
    have hout : (fix_nested_html content).2
        = pre ++ ((group1 md ++ (group3 md ++ group5 md)) ++ md.rest) := by
      simp [fix_nested_html, hs, replacement, List.append_assoc]
    have hcontent : content
        = pre ++ ((group1 md ++ (group2 md ++ (group3 md ++ (group4 md ++ group5 md)))) ++ md.rest) := by
      rw [hsplit]
      simp [matchedSpan, List.append_assoc]
    have hA : List.Sublist (group3 md ++ group5 md) (group3 md ++ (group4 md ++ group5 md)) :=
      List.Sublist.append_left (List.sublist_append_right (group4 md) (group5 md)) (group3 md)
    have hB : List.Sublist (group3 md ++ (group4 md ++ group5 md))
        (group2 md ++ (group3 md ++ (group4 md ++ group5 md))) :=
      List.sublist_append_right _ _
    have hmid : List.Sublist (group1 md ++ (group3 md ++ group5 md))
        (group1 md ++ (group2 md ++ (group3 md ++ (group4 md ++ group5 md)))) :=
      List.Sublist.append_left (hA.trans hB) (group1 md)
    refine ⟨?_, ?_, ?_⟩
    · rw [hout, hcontent]
      exact List.Sublist.append_left (hmid.append_right md.rest) pre
    · rw [hout, hcontent]
      simp only [List.length_append]
      omega
    · intro pre' md' h'
      obtain ⟨rfl, rfl⟩ : pre' = pre ∧ md' = md := by
        constructor <;> cases h' <;> rfl
      rw [hout, hcontent]
      simp only [List.length_append]
      omega

/-- Witness for C10's length equation at the specification's example input. -/
theorem claim10_witness :
    searchPat ex1 = some ([], md1)
    ∧ (fix_nested_html ex1).2.length + ((group2 md1).length + (group4 md1).length)
        = ex1.length :=
  ⟨rfl, (claim10 ex1).2.2 [] md1 rfl⟩

end HtmlFix
